import Mathlib

/-!
Shallow embedding of the background service worker of the
`personalize-extension` repository (`extension/background/background.js`,
second evolution stage), covering the task queue, its durable mirror,
payload sanitization and validation, the record store writes, and the
keyword categorizer.

JavaScript strings are embedded as `List Char` (one entry per UTF-16 unit
of the source strings; all string operations used by the code — `length`,
`slice`, concatenation, `includes`, `toLowerCase` — agree with this view
on the data the extension handles).  JavaScript values that flow through
the open `meta` maps and payload fields are embedded as the inductive
`JSValue`; JavaScript numbers keep their non-finite specials explicit so
that `Number.isFinite` checks can be mirrored.
-/

namespace PersonalizeBG

/-- A JavaScript number: a finite value or one of the non-finite specials.
Finite values are embedded as integers; no arithmetic beyond `+ 1` and
comparisons is performed on them by the embedded code. -/
inductive JSNum where
  | fin (v : Int)
  | nan
  | posInf
  | negInf
deriving DecidableEq, Repr

/-- A JavaScript value as it can appear in a message payload or `meta` map. -/
inductive JSValue where
  | str (s : List Char)
  | num (n : JSNum)
  | boolean (b : Bool)
  | arr (items : List JSValue)
  | obj (fields : List (List Char × JSValue))
  | null
  | undefined

/-- Embeds `typeof v === 'string'`. -/
def JSValue.isStr : JSValue → Bool
  | .str _ => true
  | _ => false

/-- JavaScript truthiness of a value. -/
def jsTruthy : JSValue → Bool
  | .str s => !s.isEmpty
  | .num (.fin v) => v != 0
  | .num .nan => false
  | .num .posInf => true
  | .num .negInf => true
  | .boolean b => b
  | .arr _ => true
  | .obj _ => true
  | .null => false
  | .undefined => false

/-- Field lookup on an object value (`v[key]`); `undefined` when the key is
absent or the value has no named fields. -/
def getField (v : JSValue) (key : List Char) : JSValue :=
  match v with
  | .obj fields =>
    match fields.find? (fun kv => kv.1 = key) with
    | some kv => kv.2
    | none => .undefined
  | _ => .undefined

/-!  `truncateText` (background.js lines 835-845 of the embedded stage):

```js
function truncateText(value, limit) {
  if (typeof value !== 'string') { return value; }
  if (value.length <= limit) { return value; }
  return `${value.slice(0, limit - 3)}...`;
}
```

Every call site passes a constant `limit ≥ 3` (120/200/400/800/1200/2000/4000),
so `value.slice(0, limit - 3)` is `List.take (limit - 3)`. -/

/-- The string-typed branch of `truncateText`. -/
def truncateString (s : List Char) (limit : Nat) : List Char :=
  if s.length ≤ limit then s else s.take (limit - 3) ++ "...".toList

/-- Embeds `truncateText`: non-string values are returned unchanged. -/
def truncateText (v : JSValue) (limit : Nat) : JSValue :=
  match v with
  | .str s => .str (truncateString s limit)
  | _ => v

/-!  `sanitizeMeta` (background.js lines 847-869):

```js
function sanitizeMeta(meta) {
  if (!meta || typeof meta !== 'object') { return {}; }
  const sanitized = {};
  for (const [key, value] of Object.entries(meta)) {
    if (typeof value === 'string') {
      sanitized[key] = truncateText(value, 800);
    } else if (typeof value === 'number' || typeof value === 'boolean') {
      sanitized[key] = value;
    } else if (Array.isArray(value)) {
      sanitized[key] = value.slice(0, 20).map((item) => {
        if (typeof item === 'string') { return truncateText(item, 200); }
        return item;
      });
    }
  }
  return sanitized;
}
```
-/

/-- The per-value body of the `sanitizeMeta` loop: `some` when the value is
kept (with its sanitized form), `none` when the branch chain skips it. -/
def sanitizeMetaValue (v : JSValue) : Option JSValue :=
  match v with
  | .str s => some (.str (truncateString s 800))
  | .num n => some (.num n)
  | .boolean b => some (.boolean b)
  | .arr items =>
    some (.arr ((items.take 20).map fun item =>
      match item with
      | .str s => .str (truncateString s 200)
      | other => other))
  | _ => none

/-- The `sanitizeMeta` loop over the entries of the meta object. -/
def sanitizeFields (fields : List (List Char × JSValue)) : List (List Char × JSValue) :=
  fields.filterMap fun kv => (sanitizeMetaValue kv.2).map fun v => (kv.1, v)

/-- The `Object.entries` view of an array value: index keys in order. -/
def arrayEntries (items : List JSValue) : List (List Char × JSValue) :=
  items.enum.map fun p => ((toString p.1).toList, p.2)

/-- Embeds `sanitizeMeta`: `{}` for falsy or non-object input; otherwise the
entry-wise sanitization.  (Arrays are `typeof 'object'` and truthy, so an
array meta is enumerated by index; `null` is falsy.) -/
def sanitizeMeta (meta : JSValue) : List (List Char × JSValue) :=
  match meta with
  | .obj fields => sanitizeFields fields
  | .arr items => sanitizeFields (arrayEntries items)
  | _ => []

/-- The shape every value stored by `sanitizeMeta` satisfies: strings at
most 800 characters; numbers and booleans; arrays of at most 20 elements
whose string elements are at most 200 characters; never an object, `null`
or `undefined`. -/
def metaValueSane (v : JSValue) : Bool :=
  match v with
  | .str s => s.length ≤ 800
  | .num _ => true
  | .boolean _ => true
  | .arr items =>
    items.length ≤ 20 &&
      items.all fun item =>
        match item with
        | .str s => s.length ≤ 200
        | _ => true
  | _ => false

/-- Modelled from the spec's words, for comparison with `sanitizeMetaValue`:
"only string/number/boolean/array-of-primitive accepted" — a value is
admissible when it is a primitive or an array whose elements are all
primitive. -/
def specMetaValueAdmissible (v : JSValue) : Bool :=
  match v with
  | .str _ => true
  | .num _ => true
  | .boolean _ => true
  | .arr items =>
    items.all fun item =>
      match item with
      | .str _ => true
      | .num _ => true
      | .boolean _ => true
      | _ => false
  | _ => false

/-!  `detectCategoryFromText` (background.js lines 962-993): keyword
scoring over the lowercased `title + ' ' + bodyText` haystack. -/

/-- Helper for substring search: `startsWithChars needle hay` holds when
`needle` starts `hay`. -/
def startsWithChars : List Char → List Char → Bool
  | [], _ => true
  | _ :: _, [] => false
  | n :: ns, h :: hs => n == h && startsWithChars ns hs

/-- Embeds `hay.includes(needle)` on embedded strings. -/
def includesChars (needle : List Char) : List Char → Bool
  | [] => startsWithChars needle []
  | c :: rest => startsWithChars needle (c :: rest) || includesChars needle rest

/-- The category keyword table, in declaration order. -/
def CATEGORY_KEYWORDS : List (List Char × List (List Char)) :=
  [("news".toList, ["news", "breaking", "press", "headline", "記事", "ニュース"].map String.toList),
   ("shopping".toList, ["shop", "cart", "buy", "sale", "商品", "購入", "通販"].map String.toList),
   ("social".toList, ["profile", "followers", "comment", "post", "sns", "ソーシャル", "tweet"].map String.toList),
   ("video".toList, ["video", "watch", "stream", "movie", "配信", "動画"].map String.toList),
   ("reference".toList, ["wiki", "reference", "documentation", "guide", "faq", "ヘルプ"].map String.toList),
   ("developer".toList, ["code", "developer", "api", "github", "プログラミング", "技術"].map String.toList),
   ("entertainment".toList, ["music", "game", "anime", "漫画", "entertainment", "ライブ"].map String.toList),
   ("finance".toList, ["stock", "market", "finance", "bank", "投資", "金融"].map String.toList)]

/-- The inner keyword-counting loop: `matches` accumulates one hit per
keyword whose lowercased form occurs in the haystack. -/
def categoryMatches (haystack : List Char) (keywords : List (List Char)) : Nat :=
  keywords.foldl
    (fun acc kw => if includesChars (kw.map Char.toLower) haystack then acc + 1 else acc) 0

/-- The outer loop over the category table: update the best category when
the current category scores strictly more matches (and at least one). -/
def detectLoop (haystack : List Char) :
    List (List Char × List (List Char)) → List Char → Nat → List Char
  | [], best, _ => best
  | (cat, kws) :: rest, best, maxMatches =>
    let m := categoryMatches haystack kws
    if maxMatches < m ∧ 0 < m then detectLoop haystack rest cat m
    else detectLoop haystack rest best maxMatches

/-- The lowercased `` `${title} ${bodyText}` `` haystack. -/
def analysisHaystack (title bodyText : List Char) : List Char :=
  (title ++ (' ' :: bodyText)).map Char.toLower

/-- Embeds `detectCategoryFromText`, default category `other`. -/
def detectCategoryFromText (title bodyText : List Char) : List Char :=
  detectLoop (analysisHaystack title bodyText) CATEGORY_KEYWORDS "other".toList 0

/-!  Payload validation (background.js lines 871-939). -/

/-- JavaScript whitespace as used by `trim()` on the urls and action types
this code receives. -/
def isJsSpace (c : Char) : Bool :=
  c == ' ' || c == '\t' || c == '\n' || c == '\r'

/-- Embeds `s.trim() === ''`. -/
def isBlankString (s : List Char) : Bool :=
  s.all isJsSpace

/-- A `USER_ACTION` payload as received (fields may be of any JavaScript
type or absent). -/
structure UserActionPayload where
  url : JSValue := .undefined
  type : JSValue := .undefined
  meta : JSValue := .undefined

/-- The sanitized form produced by `validateUserActionPayload`:
`{...payload, meta: sanitizeMeta(payload.meta)}` with `url` and `type`
known to be non-blank strings. -/
structure ValidUserAction where
  url : List Char
  type : List Char
  meta : List (List Char × JSValue)

/-- Embeds `validateUserActionPayload` (lines 919-939): url and type must be
non-blank strings; `meta` is sanitized. -/
def validateUserActionPayload : Option UserActionPayload → Except (List Char) ValidUserAction
  | none => .error "Missing payload".toList
  | some p =>
    match p.url with
    | .str u =>
      if isBlankString u then .error "URL is required".toList
      else
        match p.type with
        | .str t =>
          if isBlankString t then .error "Action type is required".toList
          else .ok { url := u, type := t, meta := sanitizeMeta p.meta }
        | _ => .error "Action type is required".toList
    | _ => .error "URL is required".toList

/-- The four context counters with their defaults
(`sanitizeContextMetrics`, lines 871-891). -/
structure ContextMetrics where
  characterCount : Int := 0
  paragraphCount : Int := 0
  headingCount : Int := 0
  imageCount : Int := 0
deriving DecidableEq, Repr

/-- Embeds `typeof v === 'number' && Number.isFinite(v)`: the finite value. -/
def finiteNumber? (v : JSValue) : Option Int :=
  match v with
  | .num (.fin n) => some n
  | _ => none

/-- Embeds `sanitizeContextMetrics`: each counter independently defaults to 0
unless the incoming field is a finite number.  (`context` must be truthy
and `typeof 'object'` for any field to be read; arrays qualify but their
name lookups yield `undefined`.) -/
def sanitizeContextMetrics (context : JSValue) : ContextMetrics :=
  match context with
  | .obj _ | .arr _ =>
    { characterCount := (finiteNumber? (getField context "characterCount".toList)).getD 0
      paragraphCount := (finiteNumber? (getField context "paragraphCount".toList)).getD 0
      headingCount := (finiteNumber? (getField context "headingCount".toList)).getD 0
      imageCount := (finiteNumber? (getField context "imageCount".toList)).getD 0 }
  | _ => {}

/-- A `PAGE_ANALYSIS` payload as received.  The `id` field is embedded as
`Option (List Char)`: every id this repository produces or forwards is a
string or absent. -/
structure AnalysisPayload where
  url : JSValue := .undefined
  title : JSValue := .undefined
  source : JSValue := .undefined
  extractedAt : JSValue := .undefined
  visualTrend : JSValue := .undefined
  layoutHighlights : JSValue := .undefined
  textSample : JSValue := .undefined
  viewportSummary : JSValue := .undefined
  context : JSValue := .undefined
  category : JSValue := .undefined
  id : Option (List Char) := none
  rawLLMResponse : JSValue := .undefined

/-- The sanitized payload built by `validatePageAnalysisPayload`.  The
`category`, `id` and `rawLLMResponse` fields are not listed in the
sanitizer object literal and flow through the `...payload` spread
unchanged. -/
structure AnalysisSanitized where
  id : Option (List Char)
  url : List Char
  title : List Char
  source : List Char
  extractedAt : JSNum
  visualTrend : List Char
  layoutHighlights : List Char
  textSample : List Char
  viewportSummary : List Char
  context : ContextMetrics
  category : JSValue
  rawLLMResponse : JSValue

/-- Embeds `typeof v === 'string' ? v : ''`. -/
def strOrEmpty (v : JSValue) : List Char :=
  match v with
  | .str s => s
  | _ => []

/-- Embeds `payload.source === 'history'`. -/
def isHistorySource (v : JSValue) : Bool :=
  match v with
  | .str s => s = "history".toList
  | _ => false

/-- The `sanitized` object literal of `validatePageAnalysisPayload`
(lines 902-915), for a payload whose `url` is the string `u`:
`{...payload, url, title, source, extractedAt, visualTrend,
layoutHighlights, textSample, viewportSummary}` plus the sanitized
`context`.  The spread carries `category`, `id` and `rawLLMResponse`
through unchanged. -/
def sanitizedAnalysis (p : AnalysisPayload) (now : Int) (u : List Char) : AnalysisSanitized :=
  { id := p.id
    url := u
    title := strOrEmpty p.title
    source := if isHistorySource p.source then "history".toList else "live".toList
    extractedAt := match p.extractedAt with
      | .num n => n
      | _ => .fin now
    visualTrend := strOrEmpty p.visualTrend
    layoutHighlights := strOrEmpty p.layoutHighlights
    textSample := strOrEmpty p.textSample
    viewportSummary := strOrEmpty p.viewportSummary
    context := sanitizeContextMetrics p.context
    category := p.category
    rawLLMResponse := p.rawLLMResponse }

/-- Embeds `validatePageAnalysisPayload` (lines 893-917).  `Date.now()` is passed
in as `now`. -/
def validatePageAnalysisPayload (payload : Option AnalysisPayload) (now : Int) :
    Except (List Char) AnalysisSanitized :=
  match payload with
  | none => .error "Missing payload".toList
  | some p =>
    match p.url with
    | .str u =>
      if isBlankString u then .error "URL is required".toList
      else .ok (sanitizedAnalysis p now u)
    | _ => .error "URL is required".toList

/-!  Origin derivation.  The handlers compute
`try { return new URL(url).origin; } catch { return url; }`. -/

/-- Modelled from the platform's WHATWG URL parser (host-environment code,
not part of this repository): split `scheme://rest` at the first `://`. -/
def splitScheme : List Char → Option (List Char × List Char)
  | [] => none
  | ':' :: '/' :: '/' :: rest => some ([], rest)
  | c :: rest => (splitScheme rest).map fun p => (c :: p.1, p.2)

/-- Modelled from the platform's `new URL(url).origin`: scheme and
authority, `none` when the url does not parse.  Deterministic in the url,
which is all the embedded code relies on. -/
def originOf? (url : List Char) : Option (List Char) :=
  match splitScheme url with
  | none => none
  | some (scheme, rest) =>
    let host := rest.takeWhile fun c => !(c == '/' || c == '?' || c == '#')
    if scheme.isEmpty || host.isEmpty then none
    else some (scheme ++ "://".toList ++ host)

/-- The `try { new URL(url).origin } catch { url }` pattern shared by
`handleUserAction`, `recordInteraction`, `handlePageAnalysis` and
`analyzeHistoryEntry`: the origin when the url parses, the raw url
otherwise. -/
def pageKeyOf (url : List Char) : List Char :=
  (originOf? url).getD url

/-!  Key-value state (`pageStats`, `pagePreferences`) and the record
store. -/

/-- The `lastInteraction` value: `{type, meta: sanitizeMeta(meta), timestamp}`. -/
structure LastInteraction where
  type : List Char
  meta : List (List Char × JSValue)
  timestamp : Int

/-- One entry of the `pageStats` map. -/
structure StatEntry where
  visits : Int
  lastInteraction : Option LastInteraction

/-- One entry of the `pagePreferences` map. -/
structure PrefEntry where
  highlightColor : JSValue
  lastUpdated : Int

def StatsMap : Type := List Char → Option StatEntry

def PrefsMap : Type := List Char → Option PrefEntry

/-- Assignment `m[k] = v` on a keyed JavaScript object / IndexedDB
`store.put` by primary key: replaces any previous value at `k`, leaves
every other key untouched. -/
def setKey {α : Type} (m : List Char → Option α) (k : List Char) (v : α) :
    List Char → Option α :=
  fun k2 => if k2 = k then some v else m k2

/-- An `interactionLogs` record as written by `saveInteractionLog`. -/
structure InteractionLogRecord where
  id : List Char
  url : List Char
  origin : List Char
  actionType : List Char
  meta : List (List Char × JSValue)
  timestamp : Int

/-- A record handed to `savePageFeature` (lines 793-810) before id
assignment and truncation.  `id` is embedded as `Option (List Char)`:
every id this repository produces is a string or absent. -/
structure PageFeatureRecord where
  id : Option (List Char) := none
  url : List Char := []
  origin : List Char := []
  source : List Char := []
  title : List Char := []
  extractedAt : JSNum := .fin 0
  visualTrend : JSValue := .undefined
  layoutHighlights : JSValue := .undefined
  category : JSValue := .undefined
  textSample : JSValue := .undefined
  viewportSummary : List Char := []
  context : JSValue := .undefined
  rawLLMResponse : JSValue := .undefined

/-- The id chosen when `record.id` is falsy:
`record.source === 'history' ? `${record.origin}::history` : generateId()`.
`generateId()` (a fresh `crypto.randomUUID`) is host-environment
randomness and is passed in as `genId`. -/
def derivedFeatureId (r : PageFeatureRecord) (genId : List Char) : List Char :=
  if r.source = "history".toList then r.origin ++ "::history".toList else genId

/-- Embeds `record.id || derived` (a present but empty id string is falsy). -/
def assignedFeatureId (r : PageFeatureRecord) (genId : List Char) : List Char :=
  match r.id with
  | some s => if s.isEmpty then derivedFeatureId r genId else s
  | none => derivedFeatureId r genId

/-- A `pageFeatures` record as stored. -/
structure StoredPageFeature where
  id : List Char
  url : List Char
  origin : List Char
  source : List Char
  title : List Char
  extractedAt : JSNum
  visualTrend : JSValue
  layoutHighlights : JSValue
  category : JSValue
  textSample : JSValue
  viewportSummary : List Char
  context : JSValue
  rawLLMResponse : JSValue

/-- The `pageFeatures` object store, keyed by `id` (`keyPath: 'id'`). -/
def FeatureStore : Type := List Char → Option StoredPageFeature

/-- The `sanitizedRecord` object literal of `savePageFeature`. -/
def sanitizedFeatureRecord (r : PageFeatureRecord) (genId : List Char) : StoredPageFeature :=
  { id := assignedFeatureId r genId
    url := r.url
    origin := r.origin
    source := r.source
    title := r.title
    extractedAt := r.extractedAt
    visualTrend := truncateText r.visualTrend 1200
    layoutHighlights := truncateText r.layoutHighlights 1200
    category := truncateText r.category 120
    textSample := truncateText r.textSample 2000
    viewportSummary := r.viewportSummary
    context := r.context
    rawLLMResponse := if jsTruthy r.rawLLMResponse then truncateText r.rawLLMResponse 4000
      else .undefined }

/-- Embeds `savePageFeature`: sanitize, `store.put` (upsert by id), return the
assigned id. -/
def savePageFeature (store : FeatureStore) (r : PageFeatureRecord) (genId : List Char) :
    List Char × FeatureStore :=
  let sr := sanitizedFeatureRecord r genId
  (sr.id, setKey store sr.id sr)

/-!  Handlers (background.js lines 1242-1412). -/

/-- One `browserApi.storage.local.set` call made by `handleUserAction`:
both maps are written in a single combined call (lines 1401-1404). -/
inductive KVWrite where
  | setStatsPrefs (stats : StatsMap) (prefs : PrefsMap)

/-- The outcome of `handleUserAction`: final maps, the storage writes
performed, and the interaction-log records appended. -/
structure UserActionOutcome where
  stats : StatsMap
  prefs : PrefsMap
  kvWrites : List KVWrite
  logAppends : List InteractionLogRecord

/-- Embeds `handleUserAction` (lines 1359-1408).  `Date.now()` is `now`; the
fresh id `generateId()` used by `saveInteractionLog` is `logId`.  An
invalid payload is discarded with no writes.  The stats entry for the
page key is created at `{visits: 0}` if absent, `visits` incremented,
`lastInteraction` overwritten; once the incremented `visits` reaches 3,
the preference entry is (re)written with
`meta?.preferredColor || '#fff6d5'`; both maps go out in one combined
write; then `recordInteraction` appends one log record (re-deriving the
same page key from the url and re-sanitizing the already-sanitized
meta). -/
def handleUserAction (action : Option UserActionPayload) (st : StatsMap) (pf : PrefsMap)
    (now : Int) (logId : List Char) : UserActionOutcome :=
  match validateUserActionPayload action with
  | .error _ => { stats := st, prefs := pf, kvWrites := [], logAppends := [] }
  | .ok s =>
    let pageKey := pageKeyOf s.url
    let prev : StatEntry := (st pageKey).getD { visits := 0, lastInteraction := none }
    let entry : StatEntry :=
      { visits := prev.visits + 1
        lastInteraction := some { type := s.type, meta := sanitizeMeta (.obj s.meta), timestamp := now } }
    let st2 := setKey st pageKey entry
    let preferred := getField (.obj s.meta) "preferredColor".toList
    let pf2 := if entry.visits ≥ 3 then
        setKey pf pageKey
          { highlightColor := if jsTruthy preferred then preferred else .str "#fff6d5".toList
            lastUpdated := now }
      else pf
    { stats := st2
      prefs := pf2
      kvWrites := [.setStatsPrefs st2 pf2]
      logAppends := [{ id := logId, url := s.url, origin := pageKeyOf s.url,
                       actionType := s.type, meta := sanitizeMeta (.obj s.meta),
                       timestamp := now }] }

/-- The four counters as stored inside a page-feature record. -/
def contextToJS (c : ContextMetrics) : JSValue :=
  .obj [("characterCount".toList, .num (.fin c.characterCount)),
        ("paragraphCount".toList, .num (.fin c.paragraphCount)),
        ("headingCount".toList, .num (.fin c.headingCount)),
        ("imageCount".toList, .num (.fin c.imageCount))]

/-- The `record` object literal of `handlePageAnalysis` (lines
1258-1272): the sanitized payload plus the derived origin. -/
def analysisFeatureRecord (s : AnalysisSanitized) : PageFeatureRecord :=
  { id := s.id
    url := s.url
    origin := pageKeyOf s.url
    source := s.source
    title := s.title
    extractedAt := s.extractedAt
    visualTrend := .str s.visualTrend
    layoutHighlights := .str s.layoutHighlights
    category := s.category
    textSample := .str s.textSample
    viewportSummary := s.viewportSummary
    context := contextToJS s.context
    rawLLMResponse := s.rawLLMResponse }

/-- Embeds `handlePageAnalysis` (lines 1242-1276): validate, derive the page key,
build the record object, upsert it via `savePageFeature`.  An invalid
payload is discarded with no write. -/
def handlePageAnalysis (analysis : Option AnalysisPayload) (now : Int) (genId : List Char)
    (store : FeatureStore) : FeatureStore :=
  match validatePageAnalysisPayload analysis now with
  | .error _ => store
  | .ok s => (savePageFeature store (analysisFeatureRecord s) genId).2

/-- Embeds `handleHistorySync` / `analyzeRecentHistory` (lines 1176-1213,
1410-1412).  The browsing-history search, per-origin fetch + HTML parse
and optional LLM summary are host-environment effects; their outcome for
each analyzed origin arrives as an already-built `PageFeatureRecord`
(with `source := 'history'` and no id, as `analyzeHistoryEntry` builds
it) together with the fresh id `generateId()` would produce.  The
handler's only effect on this state is the sequence of `savePageFeature`
upserts; it reads and writes neither `pageStats` nor
`pagePreferences`. -/
def handleHistorySync (analyses : List (PageFeatureRecord × List Char))
    (store : FeatureStore) : FeatureStore :=
  analyses.foldl (fun acc p => (savePageFeature acc p.1 p.2).2) store

/-- The shared mutable background state the handlers touch. -/
structure BgState where
  stats : StatsMap
  prefs : PrefsMap
  features : FeatureStore
  logs : List InteractionLogRecord

/-- A queued task (`task.type` with its payload). -/
inductive BgTask where
  | userAction (payload : Option UserActionPayload)
  | syncHistory
  | pageAnalysis (payload : Option AnalysisPayload)
  | unknown (tag : List Char)

/-- Host-environment inputs of one task dispatch: the clock, the fresh id
supply, and the history-sync analysis outcomes. -/
structure Env where
  now : Int
  genId : List Char
  historyAnalyses : List (PageFeatureRecord × List Char)

/-- The `switch (task.type)` dispatch of `processQueue` (lines 1334-1347):
the state effect of handling one task.  Unknown task types are logged and
ignored. -/
def runTask (t : BgTask) (env : Env) (s : BgState) : BgState :=
  match t with
  | .userAction a =>
    let r := handleUserAction a s.stats s.prefs env.now env.genId
    { s with stats := r.stats, prefs := r.prefs, logs := s.logs ++ r.logAppends }
  | .syncHistory => { s with features := handleHistorySync env.historyAnalyses s.features }
  | .pageAnalysis p => { s with features := handlePageAnalysis p env.now env.genId s.features }
  | .unknown _ => s

/-!  The task queue (background.js lines 1302-1357, 1497-1503).

`taskQueue` is the in-memory list, `personalizeActionQueue` its durable
mirror, `processing` the single-flight flag.  Execution is
single-threaded and cooperative; the atomic steps between suspension
points are modelled as events: `enq` is `enqueueTask` (push, then
snapshot if persisting), `takeTask` is the claim step at the top of a
`processQueue` iteration (guard on the flag, `shift()`, snapshot, set the
flag), `finishTask` is the `finally` block clearing the flag.  A run is
any sequence of these events, which covers every interleaving of message
arrivals with the drain loop. -/

structure QueueState where
  queue : List BgTask
  mirror : List BgTask
  dispatched : List BgTask
  processing : Bool

/-- Embeds `persistQueueSnapshot`: overwrite the durable mirror with a full
snapshot of the current list. -/
def persistQueueSnapshot (s : QueueState) : QueueState :=
  { s with mirror := s.queue }

/-- Embeds `enqueueTask(task, {persist})`: append to the tail, snapshot when
persisting. -/
def enqueueTask (s : QueueState) (t : BgTask) (persist : Bool) : QueueState :=
  let s1 := { s with queue := s.queue ++ [t] }
  if persist then persistQueueSnapshot s1 else s1

inductive QueueEvent where
  | enq (t : BgTask) (persist : Bool)
  | takeTask
  | finishTask

/-- One atomic event.  `takeTask` is a no-op when the flag is set or the
queue is empty (the early return of `processQueue`); otherwise it claims
the head: removes it, snapshots the shorter list, records the dispatch
and sets the flag for the duration of the handler. -/
def queueStep (s : QueueState) : QueueEvent → QueueState
  | .enq t persist => enqueueTask s t persist
  | .takeTask =>
    if s.processing then s
    else
      match s.queue with
      | [] => s
      | t :: rest =>
        { queue := rest, mirror := rest, dispatched := s.dispatched ++ [t], processing := true }
  | .finishTask => { s with processing := false }

def queueRun (s : QueueState) (events : List QueueEvent) : QueueState :=
  events.foldl queueStep s

def queueInit : QueueState :=
  { queue := [], mirror := [], dispatched := [], processing := false }

/-- The tasks enqueued by a run, in order. -/
def enqueuedTasks (events : List QueueEvent) : List BgTask :=
  events.filterMap fun e =>
    match e with
    | .enq t _ => some t
    | _ => none

/-- Every enqueue of the run used `persist=true` (the default; only the
startup replay passes `persist=false`). -/
def allPersisted (events : List QueueEvent) : Bool :=
  events.all fun e =>
    match e with
    | .enq _ persist => persist
    | _ => true

/-- The startup replay IIFE (lines 1497-1503): read the durable mirror
back and re-enqueue every contained task with `persist=false`. -/
def replayFromMirror (m : List BgTask) : QueueState :=
  m.foldl (fun s t => enqueueTask s t false)
    { queue := [], mirror := m, dispatched := [], processing := false }

/-- The full drain of `processQueue` (lines 1323-1357), big-step.  The
handler receives the task and the handler-visible state `σ` and returns
the state it reached together with `true` when it completed, `false` when
it threw; the `try/catch/finally` makes both outcomes reach the same
continuation, so the drain records the dispatch either way, clears the
flag and recurses while tasks remain.  Returns the final queue state, the
final handler state and the dispatch report in order. -/
def processQueue {σ : Type} (handler : BgTask → σ → σ × Bool) (s : QueueState) (hs : σ) :
    QueueState × σ × List (BgTask × Bool) :=
  if s.processing then (s, hs, [])
  else
    match hq : s.queue with
    | [] => (s, hs, [])
    | t :: rest =>
      let hr := handler t hs
      let nxt := processQueue handler
        { queue := rest, mirror := rest, dispatched := s.dispatched ++ [t], processing := false }
        hr.1
      (nxt.1, nxt.2.1, (t, hr.2) :: nxt.2.2)
termination_by s.queue.length
decreasing_by simp [hq]

/-- The visit counter an origin shows in a stats map (0 when the origin
has no entry yet, matching the `{visits: 0}` initialization). -/
def visitsAt (st : StatsMap) (o : List Char) : Int :=
  match st o with
  | some e => e.visits
  | none => 0

def emptyStats : StatsMap := fun _ => none

def emptyPrefs : PrefsMap := fun _ => none

def emptyFeatureStore : FeatureStore := fun _ => none

/-- A user action whose meta carries a present but falsy
`preferredColor`. -/
def demoActionFalsyColor : UserActionPayload :=
  { url := .str "https://a.test/x".toList
    type := .str "click".toList
    meta := .obj [("preferredColor".toList, .boolean false)] }

/-- The spec's scenario action: `preferredColor: '#112233'`. -/
def demoActionColor : UserActionPayload :=
  { url := .str "https://a.test/x".toList
    type := .str "click".toList
    meta := .obj [("preferredColor".toList, .str "#112233".toList)] }

/-- A stats map where `https://a.test` already has `visits = 2`. -/
def demoStatsTwo : StatsMap :=
  setKey emptyStats "https://a.test".toList { visits := 2, lastInteraction := none }

/-- A history record for origin `https://a.test` (no caller-supplied id). -/
def demoHistoryRecordA : PageFeatureRecord :=
  { origin := "https://a.test".toList, source := "history".toList, title := "first".toList }

/-- A second history record for the same origin. -/
def demoHistoryRecordB : PageFeatureRecord :=
  { origin := "https://a.test".toList, source := "history".toList, title := "second".toList }

/-- A live record with no caller-supplied id. -/
def demoLiveRecord : PageFeatureRecord :=
  { origin := "https://b.test".toList, source := "live".toList }

/-- A `PAGE_ANALYSIS` payload carrying a numeric `category`. -/
def demoAnalysisPayloadCat : AnalysisPayload :=
  { url := .str "https://b.test/".toList, category := .num (.fin 7) }

/-- The spec's scenario payload: url only, no `context`. -/
def demoAnalysisPayloadBare : AnalysisPayload :=
  { url := .str "https://b.test/".toList }

/-- The highlight color `handleUserAction` stores for a sanitized meta:
`meta?.preferredColor || '#fff6d5'` — the `preferredColor` value when
truthy, the fixed fallback otherwise. -/
def expectedHighlightColor (m : List (List Char × JSValue)) : JSValue :=
  if jsTruthy (getField (.obj m) "preferredColor".toList) then
    getField (.obj m) "preferredColor".toList
  else .str "#fff6d5".toList

/-- A concrete environment for instantiating the handler theorems. -/
def demoEnv : Env :=
  { now := 100, genId := "gid".toList, historyAnalyses := [] }

/-- A concrete background state whose stats give `https://a.test` two
visits. -/
def demoBgState : BgState :=
  { stats := demoStatsTwo, prefs := emptyPrefs, features := emptyFeatureStore, logs := [] }

/-- A small concrete run used to instantiate the queue theorems. -/
def demoEvents : List QueueEvent :=
  [.enq .syncHistory true, .takeTask, .finishTask, .enq (.userAction none) true]

/-- A concrete idle queue state with one pending task. -/
def demoIdleState : QueueState :=
  { queue := [.syncHistory], mirror := [], dispatched := [], processing := false }

/-- A concrete idle queue state with two pending tasks. -/
def demoTwoTaskState : QueueState :=
  { queue := [.syncHistory, .unknown []], mirror := [], dispatched := [], processing := false }

/-- A handler behavior that throws on every task. -/
def alwaysThrowHandler : BgTask → Nat → Nat × Bool :=
  fun _ n => (n + 1, false)

theorem truncateString_length_le (s : List Char) (limit : Nat) (h : 3 ≤ limit) :
    (truncateString s limit).length ≤ limit := by
  unfold truncateString
  split
  · assumption
  · simp only [List.length_append, List.length_take]
    have : "...".toList.length = 3 := rfl
    omega

theorem truncateString_of_le (s : List Char) (limit : Nat) (h : s.length ≤ limit) :
    truncateString s limit = s := by
  unfold truncateString
  exact if_pos h

theorem truncateString_idem (s : List Char) (limit : Nat) (h : 3 ≤ limit) :
    truncateString (truncateString s limit) limit = truncateString s limit :=
  truncateString_of_le _ _ (truncateString_length_le s limit h)


theorem sanitizeMetaValue_sane (v w : JSValue) (h : sanitizeMetaValue v = some w) :
    metaValueSane w = true := by
  cases v with
  | str s =>
    simp only [sanitizeMetaValue, Option.some.injEq] at h
    subst h
    simp [metaValueSane, truncateString_length_le s 800 (by omega)]
  | num n => simp only [sanitizeMetaValue, Option.some.injEq] at h; subst h; rfl
  | boolean b => simp only [sanitizeMetaValue, Option.some.injEq] at h; subst h; rfl
  | arr items =>
    simp only [sanitizeMetaValue, Option.some.injEq] at h
    subst h
    simp only [metaValueSane, Bool.and_eq_true, decide_eq_true_eq, List.all_eq_true]
    constructor
    · calc (List.map _ (items.take 20)).length = (items.take 20).length := List.length_map _ _
        _ ≤ 20 := by simp
    · intro item hitem
      rcases List.mem_map.mp hitem with ⟨orig, _, rfl⟩
      cases orig with
      | str s => simpa using truncateString_length_le s 200 (by omega)
      | num n => rfl
      | boolean b => rfl
      | arr xs => rfl
      | obj fs => rfl
      | null => rfl
      | undefined => rfl
  | obj fs => simp [sanitizeMetaValue] at h
  | null => simp [sanitizeMetaValue] at h
  | undefined => simp [sanitizeMetaValue] at h

theorem sanitizeFields_sane (fields : List (List Char × JSValue))
    (kv : List Char × JSValue) (h : kv ∈ sanitizeFields fields) :
    metaValueSane kv.2 = true := by
  rcases List.mem_filterMap.mp h with ⟨orig, _, horig⟩
  rcases Option.map_eq_some'.mp horig with ⟨w, hw, hkv⟩
  have : kv.2 = w := by rw [← hkv]
  rw [this]
  exact sanitizeMetaValue_sane orig.2 w hw


theorem detectLoop_characterization (haystack : List Char)
    (l : List (List Char × List (List Char))) (best : List Char) (maxM : Nat) :
    (detectLoop haystack l best maxM = best ∧
      ∀ p ∈ l, categoryMatches haystack p.2 ≤ maxM) ∨
    (∃ pre kws post,
      l = pre ++ (detectLoop haystack l best maxM, kws) :: post ∧
      maxM < categoryMatches haystack kws ∧
      (∀ p ∈ pre, categoryMatches haystack p.2 < categoryMatches haystack kws) ∧
      (∀ p ∈ post, categoryMatches haystack p.2 ≤ categoryMatches haystack kws)) := by
  induction l generalizing best maxM with
  | nil => exact Or.inl ⟨rfl, by simp⟩
  | cons hd rest ih =>
    obtain ⟨cat, kws0⟩ := hd
    by_cases hc : maxM < categoryMatches haystack kws0 ∧ 0 < categoryMatches haystack kws0
    · have hl : detectLoop haystack ((cat, kws0) :: rest) best maxM =
          detectLoop haystack rest cat (categoryMatches haystack kws0) := by
        simp [detectLoop, hc]
      rcases ih cat (categoryMatches haystack kws0) with ⟨heq, hall⟩ |
        ⟨pre, kws, post, hsplit, hmax, hpre, hpost⟩
      · refine Or.inr ⟨[], kws0, rest, ?_, hc.1, by simp, ?_⟩
        · rw [hl, heq]; rfl
        · intro p hp; exact hall p hp
      · refine Or.inr ⟨(cat, kws0) :: pre, kws, post, ?_, lt_trans hc.1 hmax, ?_, hpost⟩
        · rw [hl]
          conv_lhs => rw [hsplit]
          rfl
        · intro p hp
          rcases List.mem_cons.mp hp with hhd | htl
          · rw [hhd]; exact hmax
          · exact hpre p htl
    · have hl : detectLoop haystack ((cat, kws0) :: rest) best maxM =
          detectLoop haystack rest best maxM := by
        simp [detectLoop, hc]
      have hle : categoryMatches haystack kws0 ≤ maxM := by
        by_contra hgt
        push_neg at hgt
        exact hc ⟨hgt, by omega⟩
      rcases ih best maxM with ⟨heq, hall⟩ | ⟨pre, kws, post, hsplit, hmax, hpre, hpost⟩
      · refine Or.inl ⟨hl.trans heq, ?_⟩
        intro p hp
        rcases List.mem_cons.mp hp with hhd | htl
        · rw [hhd]; exact hle
        · exact hall p htl
      · refine Or.inr ⟨(cat, kws0) :: pre, kws, post, ?_, hmax, ?_, hpost⟩
        · rw [hl]
          conv_lhs => rw [hsplit]
          rfl
        · intro p hp
          rcases List.mem_cons.mp hp with hhd | htl
          · rw [hhd]; exact lt_of_le_of_lt hle hmax
          · exact hpre p htl


/-- C10: for every string `s` and limit `≥ 3`, `truncateText` on the string
returns a string of length at most `limit` (unchanged when already within
the limit), is idempotent at a fixed limit, and returns non-string inputs
unchanged. -/
theorem truncateText_bounded_and_idem (s : List Char) (limit : Nat) (v : JSValue)
    (h : 3 ≤ limit) (hv : v.isStr = false) :
    truncateText (.str s) limit = .str (truncateString s limit) ∧
    (truncateString s limit).length ≤ limit ∧
    (s.length ≤ limit → truncateString s limit = s) ∧
    truncateText (truncateText (.str s) limit) limit = truncateText (.str s) limit ∧
    truncateText v limit = v := by
  refine ⟨rfl, truncateString_length_le s limit h, truncateString_of_le s limit, ?_, ?_⟩
  · simp [truncateText, truncateString_idem s limit h]
  · cases v <;> first | rfl | simp [JSValue.isStr] at hv

theorem truncateText_bounded_and_idem_witness :
    truncateText (.str "personalize".toList) 8 = .str (truncateString "personalize".toList 8) ∧
    (truncateString "personalize".toList 8).length ≤ 8 ∧
    ("personalize".toList.length ≤ 8 → truncateString "personalize".toList 8 = "personalize".toList) ∧
    truncateText (truncateText (.str "personalize".toList) 8) 8 =
      truncateText (.str "personalize".toList) 8 ∧
    truncateText (.boolean true) 8 = .boolean true :=
  truncateText_bounded_and_idem "personalize".toList 8 (.boolean true) (by omega) rfl

/-- C4 counterexample: the claim says sanitization admits only
string/number/boolean/array-of-primitive values and drops all others, but
`sanitizeMeta` keeps an array containing an object (a non-primitive
element) unchanged: the value `[{}]` is not an array of primitives, yet it
is stored rather than dropped. -/
theorem sanitizeMeta_keeps_nonprimitive_array :
    specMetaValueAdmissible (.arr [.obj []]) = false ∧
    sanitizeMeta (.obj [("snippet".toList, .arr [.obj []])]) =
      [("snippet".toList, .arr [.obj []])] :=
  ⟨rfl, rfl⟩

/-- C4 (amended): every value stored by `sanitizeMeta` is a string of at
most 800 characters, a number, a boolean, or an array clamped to at most
20 elements whose string elements are truncated to at most 200 characters
(non-string array elements, including non-primitive ones, pass through
unchanged); objects, `null` and `undefined` are dropped.  A 1000-character
string is stored as its first 797 characters followed by `...`, i.e.
exactly 800 characters. -/
theorem sanitizeMeta_shapes (m : JSValue) (kv : List Char × JSValue)
    (h : kv ∈ sanitizeMeta m) (s : List Char) (hs : s.length = 1000) :
    metaValueSane kv.2 = true ∧
    truncateString s 800 = s.take 797 ++ "...".toList ∧
    (truncateString s 800).length = 800 := by
  refine ⟨?_, ?_, ?_⟩
  · cases m with
    | obj fields => exact sanitizeFields_sane fields kv h
    | arr items => exact sanitizeFields_sane _ kv h
    | str s => simp [sanitizeMeta] at h
    | num n => simp [sanitizeMeta] at h
    | boolean b => simp [sanitizeMeta] at h
    | null => simp [sanitizeMeta] at h
    | undefined => simp [sanitizeMeta] at h
  · unfold truncateString
    rw [if_neg (by omega)]
  · unfold truncateString
    rw [if_neg (by omega)]
    have h3 : ("...".toList).length = 3 := rfl
    simp only [List.length_append, List.length_take, h3, hs]
    omega

theorem sanitizeMeta_shapes_witness :
    metaValueSane (("k".toList, JSValue.boolean true) : List Char × JSValue).2 = true ∧
    truncateString (List.replicate 1000 'x') 800 =
      (List.replicate 1000 'x').take 797 ++ "...".toList ∧
    (truncateString (List.replicate 1000 'x') 800).length = 800 :=
  sanitizeMeta_shapes (.obj [("k".toList, .boolean true)]) ("k".toList, .boolean true)
    (List.mem_singleton.mpr rfl)
    (List.replicate 1000 'x') (List.length_replicate 1000 'x')

/-- C8: category classification scores each category by the count of its
keywords occurring in the lowercased `title + ' ' + body` haystack; it
returns `other` exactly when no keyword matches, and otherwise a category
that strictly beats every earlier-declared category and is not beaten by
any later-declared one (ties broken in favor of the first declared); text
containing `buy` and `cart` and no other keyword classifies as
`shopping`. -/
theorem detectCategoryFromText_scoring (title bodyText : List Char) :
    ((∀ p ∈ CATEGORY_KEYWORDS, categoryMatches (analysisHaystack title bodyText) p.2 = 0) →
      detectCategoryFromText title bodyText = "other".toList) ∧
    ((∃ p ∈ CATEGORY_KEYWORDS, 0 < categoryMatches (analysisHaystack title bodyText) p.2) →
      ∃ pre kws post,
        CATEGORY_KEYWORDS = pre ++ (detectCategoryFromText title bodyText, kws) :: post ∧
        0 < categoryMatches (analysisHaystack title bodyText) kws ∧
        (∀ p ∈ pre, categoryMatches (analysisHaystack title bodyText) p.2 <
          categoryMatches (analysisHaystack title bodyText) kws) ∧
        (∀ p ∈ post, categoryMatches (analysisHaystack title bodyText) p.2 ≤
          categoryMatches (analysisHaystack title bodyText) kws)) ∧
    detectCategoryFromText "buy".toList "cart".toList = "shopping".toList := by
  have hdef : detectCategoryFromText title bodyText =
      detectLoop (analysisHaystack title bodyText) CATEGORY_KEYWORDS "other".toList 0 := rfl
  obtain hchar := detectLoop_characterization (analysisHaystack title bodyText)
    CATEGORY_KEYWORDS "other".toList 0
  rw [← hdef] at hchar
  refine ⟨?_, ?_, by decide⟩
  · intro hzero
    rcases hchar with ⟨heq, _⟩ | ⟨pre, kws, post, hsplit, hmax, _, _⟩
    · exact heq
    · exfalso
      have hmem : (detectCategoryFromText title bodyText, kws) ∈ CATEGORY_KEYWORDS := by
        rw [hsplit]
        exact List.mem_append_right _ (List.mem_cons_self _ _)
      have h0 : categoryMatches (analysisHaystack title bodyText) kws = 0 := hzero _ hmem
      omega
  · rintro ⟨p, hp, hpos⟩
    rcases hchar with ⟨_, hall⟩ | ⟨pre, kws, post, hsplit, hmax, hpre, hpost⟩
    · exact absurd (hall p hp) (by omega)
    · exact ⟨pre, kws, post, hsplit, by omega, hpre, hpost⟩

theorem detectCategoryFromText_scoring_witness :
    detectCategoryFromText "hello".toList "plain world".toList = "other".toList :=
  (detectCategoryFromText_scoring "hello".toList "plain world".toList).1 (by decide)

theorem queueRun_dispatch_append (events : List QueueEvent) :
    ∀ s : QueueState,
      (queueRun s events).dispatched ++ (queueRun s events).queue =
        s.dispatched ++ s.queue ++ enqueuedTasks events := by
  induction events with
  | nil => intro s; simp [queueRun, enqueuedTasks]
  | cons e rest ih =>
    intro s
    have hstep : queueRun s (e :: rest) = queueRun (queueStep s e) rest := rfl
    rw [hstep, ih]
    cases e with
    | enq t persist =>
      cases persist <;>
        simp [queueStep, enqueueTask, persistQueueSnapshot, enqueuedTasks,
          List.filterMap_cons]
    | takeTask =>
      by_cases hp : s.processing
      · simp [queueStep, hp, enqueuedTasks, List.filterMap_cons]
      · cases hq : s.queue with
        | nil => simp [queueStep, hp, hq, enqueuedTasks, List.filterMap_cons]
        | cons t q => simp [queueStep, hp, hq, enqueuedTasks, List.filterMap_cons]
    | finishTask => simp [queueStep, enqueuedTasks, List.filterMap_cons]

theorem queueRun_mirror_eq (events : List QueueEvent) (hall : allPersisted events = true) :
    ∀ s : QueueState, s.mirror = s.queue →
      (queueRun s events).mirror = (queueRun s events).queue := by
  induction events with
  | nil => intro s h; exact h
  | cons e rest ih =>
    intro s h
    have hall2 : allPersisted rest = true := by
      simp only [allPersisted, List.all_cons, Bool.and_eq_true] at hall
      exact hall.2
    have hstep : queueRun s (e :: rest) = queueRun (queueStep s e) rest := rfl
    rw [hstep]
    apply ih hall2
    cases e with
    | enq t persist =>
      have hp : persist = true := by
        simp only [allPersisted, List.all_cons, Bool.and_eq_true] at hall
        exact hall.1
      subst hp
      simp [queueStep, enqueueTask, persistQueueSnapshot]
    | takeTask =>
      by_cases hp : s.processing
      · simpa [queueStep, hp] using h
      · cases hq : s.queue with
        | nil => simpa [queueStep, hp, hq] using h
        | cons t q => simp [queueStep, hp, hq]
    | finishTask => simpa [queueStep] using h

theorem replayLoop_spec (l : List BgTask) :
    ∀ s : QueueState,
      (l.foldl (fun s t => enqueueTask s t false) s).queue = s.queue ++ l ∧
      (l.foldl (fun s t => enqueueTask s t false) s).mirror = s.mirror := by
  induction l with
  | nil => intro s; simp
  | cons t rest ih =>
    intro s
    have hstep : (t :: rest).foldl (fun s t => enqueueTask s t false) s =
        rest.foldl (fun s t => enqueueTask s t false) (enqueueTask s t false) := rfl
    rw [hstep]
    obtain ⟨h1, h2⟩ := ih (enqueueTask s t false)
    refine ⟨?_, ?_⟩
    · rw [h1]; simp [enqueueTask]
    · rw [h2]; simp [enqueueTask]

theorem processQueue_drain {σ : Type} (handler : BgTask → σ → σ × Bool) :
    ∀ (q m d : List BgTask) (hs : σ),
      (processQueue handler { queue := q, mirror := m, dispatched := d, processing := false }
          hs).1.queue = [] ∧
      (processQueue handler { queue := q, mirror := m, dispatched := d, processing := false }
          hs).1.processing = false ∧
      (processQueue handler { queue := q, mirror := m, dispatched := d, processing := false }
          hs).1.dispatched = d ++ q ∧
      (processQueue handler { queue := q, mirror := m, dispatched := d, processing := false }
          hs).2.2.map Prod.fst = q := by
  intro q
  induction q with
  | nil =>
    intro m d hs
    rw [processQueue]
    simp
  | cons t rest ih =>
    intro m d hs
    rw [processQueue]
    simp only [Bool.false_eq_true, if_false]
    obtain ⟨h1, h2, h3, h4⟩ := ih rest (d ++ [t]) ((handler t hs).1)
    refine ⟨h1, h2, ?_, ?_⟩
    · rw [h3]; simp
    · simp [h4]

/-- C1: the task queue is strictly FIFO.  In every run of the event model
(arbitrary interleavings of `enqueueTask` calls and `processQueue` steps
from an initially empty idle queue), the sequence of dispatched tasks
followed by the still-pending queue equals the enqueue sequence — so
tasks are claimed in exactly enqueue order, with no priority, reordering,
or deduplication of equal tasks; and a full `processQueue` drain of a
pending list dispatches exactly that list in order. -/
theorem queue_strict_fifo {σ : Type} (events : List QueueEvent)
    (handler : BgTask → σ → σ × Bool) (ts : List BgTask) (hs : σ) :
    (queueRun queueInit events).dispatched ++ (queueRun queueInit events).queue =
      enqueuedTasks events ∧
    (∃ rest, (queueRun queueInit events).dispatched ++ rest = enqueuedTasks events) ∧
    (processQueue handler { queue := ts, mirror := ts, dispatched := [], processing := false }
        hs).2.2.map Prod.fst = ts := by
  have h1 : (queueRun queueInit events).dispatched ++ (queueRun queueInit events).queue =
      enqueuedTasks events := by
    simpa [queueInit] using queueRun_dispatch_append events queueInit
  exact ⟨h1, ⟨(queueRun queueInit events).queue, h1⟩,
    (processQueue_drain handler ts ts [] hs).2.2.2⟩

/-- C2: after every persisted enqueue and after every dequeue the durable
mirror equals the in-memory pending list; in any run whose enqueues all
persist, the mirror equals the pending list (the enqueue sequence minus
the dispatched prefix), and the startup replay of the mirror re-enqueues
exactly those not-yet-dequeued tasks with `persist=false`, leaving the
mirror itself untouched. -/
theorem queue_mirror_and_replay (events : List QueueEvent) (s : QueueState) (t : BgTask)
    (hall : allPersisted events = true) (hp : s.processing = false) (hq : s.queue ≠ []) :
    (queueStep s (.enq t true)).mirror = (queueStep s (.enq t true)).queue ∧
    (queueStep s .takeTask).mirror = (queueStep s .takeTask).queue ∧
    (queueRun queueInit events).mirror = (queueRun queueInit events).queue ∧
    (queueRun queueInit events).dispatched ++ (queueRun queueInit events).mirror =
      enqueuedTasks events ∧
    (replayFromMirror ((queueRun queueInit events).mirror)).queue =
      (queueRun queueInit events).mirror ∧
    (replayFromMirror ((queueRun queueInit events).mirror)).mirror =
      (queueRun queueInit events).mirror := by
  have hmir : (queueRun queueInit events).mirror = (queueRun queueInit events).queue :=
    queueRun_mirror_eq events hall queueInit rfl
  have hdisp : (queueRun queueInit events).dispatched ++ (queueRun queueInit events).queue =
      enqueuedTasks events := by
    simpa [queueInit] using queueRun_dispatch_append events queueInit
  obtain ⟨hrq, hrm⟩ := replayLoop_spec ((queueRun queueInit events).mirror)
    { queue := [], mirror := (queueRun queueInit events).mirror, dispatched := [],
      processing := false }
  refine ⟨?_, ?_, hmir, ?_, ?_, hrm⟩
  · simp [queueStep, enqueueTask, persistQueueSnapshot]
  · cases hqq : s.queue with
    | nil => exact absurd hqq hq
    | cons a q => simp [queueStep, hp, hqq]
  · rw [hmir]; exact hdisp
  · simpa using hrq

theorem queue_mirror_and_replay_witness :
    (queueStep demoIdleState (.enq .syncHistory true)).mirror =
      (queueStep demoIdleState (.enq .syncHistory true)).queue ∧
    (queueStep demoIdleState .takeTask).mirror = (queueStep demoIdleState .takeTask).queue ∧
    (queueRun queueInit demoEvents).mirror = (queueRun queueInit demoEvents).queue ∧
    (queueRun queueInit demoEvents).dispatched ++ (queueRun queueInit demoEvents).mirror =
      enqueuedTasks demoEvents ∧
    (replayFromMirror ((queueRun queueInit demoEvents).mirror)).queue =
      (queueRun queueInit demoEvents).mirror ∧
    (replayFromMirror ((queueRun queueInit demoEvents).mirror)).mirror =
      (queueRun queueInit demoEvents).mirror :=
  queue_mirror_and_replay demoEvents demoIdleState .syncHistory rfl rfl
    (List.cons_ne_nil _ _)

/-- C5: for every handler behavior — including one that throws on every
task — a full `processQueue` drain of an idle queue terminates with the
queue empty and the processing flag cleared, and its dispatch report
lists each pending task exactly once in order: a throwing handler is
caught (both outcomes reach the `finally` continuation), its task is
dropped and never retried, and the loop continues with the remaining
tasks. -/
theorem processQueue_catches_and_drops {σ : Type} (handler : BgTask → σ → σ × Bool)
    (s : QueueState) (hs : σ) (h : s.processing = false) :
    (processQueue handler s hs).1.queue = [] ∧
    (processQueue handler s hs).1.processing = false ∧
    (processQueue handler s hs).1.dispatched = s.dispatched ++ s.queue ∧
    (processQueue handler s hs).2.2.map Prod.fst = s.queue := by
  obtain ⟨q, m, d, p⟩ := s
  simp only at h
  subst h
  exact processQueue_drain handler q m d hs

theorem processQueue_catches_and_drops_witness :
    (processQueue alwaysThrowHandler demoTwoTaskState 0).1.queue = [] ∧
    (processQueue alwaysThrowHandler demoTwoTaskState 0).1.processing = false ∧
    (processQueue alwaysThrowHandler demoTwoTaskState 0).1.dispatched =
      demoTwoTaskState.dispatched ++ demoTwoTaskState.queue ∧
    (processQueue alwaysThrowHandler demoTwoTaskState 0).2.2.map Prod.fst =
      demoTwoTaskState.queue :=
  processQueue_catches_and_drops alwaysThrowHandler demoTwoTaskState 0 rfl

/-- C6: `savePageFeature` on a record with `source=history` and no
caller-supplied id derives the id from the origin alone
(`origin + '::history'`, independent of the generated id), so two such
saves for the same origin land on the same single id — the second
overwrites the first and, starting from an empty store, exactly one
record exists.  A record with any other source and no id is stored under
the freshly generated id `genId` (a new record whenever that id is indeed
fresh, i.e. unused in the store). -/
theorem savePageFeature_id_semantics (store : FeatureStore) (r1 r2 r : PageFeatureRecord)
    (g1 g2 g : List Char)
    (h1 : r1.id = none) (h2 : r2.id = none)
    (hs1 : r1.source = "history".toList) (hs2 : r2.source = "history".toList)
    (horg : r2.origin = r1.origin)
    (hr : r.id = none) (hrs : r.source ≠ "history".toList) (hg : store g = none) :
    (savePageFeature store r1 g1).1 = r1.origin ++ "::history".toList ∧
    (savePageFeature store r2 g2).1 = (savePageFeature store r1 g1).1 ∧
    (savePageFeature (savePageFeature store r1 g1).2 r2 g2).2
        (r1.origin ++ "::history".toList) = some (sanitizedFeatureRecord r2 g2) ∧
    (∀ k, k ≠ r1.origin ++ "::history".toList →
      (savePageFeature (savePageFeature store r1 g1).2 r2 g2).2 k = store k) ∧
    (∀ k, (savePageFeature (savePageFeature emptyFeatureStore r1 g1).2 r2 g2).2 k ≠ none →
      k = r1.origin ++ "::history".toList) ∧
    (savePageFeature store r g).1 = g ∧
    (store g = none ∧
      (savePageFeature store r g).2 g = some (sanitizedFeatureRecord r g)) ∧
    (∀ k, k ≠ g → (savePageFeature store r g).2 k = store k) := by
  have hid1 : assignedFeatureId r1 g1 = r1.origin ++ "::history".toList := by
    simp [assignedFeatureId, derivedFeatureId, h1, hs1]
  have hid2 : assignedFeatureId r2 g2 = r1.origin ++ "::history".toList := by
    simp [assignedFeatureId, derivedFeatureId, h2, hs2, horg]
  have hidr : assignedFeatureId r g = g := by
    simp only [assignedFeatureId, hr, derivedFeatureId]
    exact if_neg hrs
  have hsr1 : (sanitizedFeatureRecord r1 g1).id = r1.origin ++ "::history".toList := hid1
  have hsr2 : (sanitizedFeatureRecord r2 g2).id = r1.origin ++ "::history".toList := hid2
  have hsrr : (sanitizedFeatureRecord r g).id = g := hidr
  refine ⟨hsr1, ?_, ?_, ?_, ?_, hsrr, ?_, ?_⟩
  · show (sanitizedFeatureRecord r2 g2).id = (sanitizedFeatureRecord r1 g1).id
    rw [hsr1, hsr2]
  · show setKey (setKey store (sanitizedFeatureRecord r1 g1).id (sanitizedFeatureRecord r1 g1))
        (sanitizedFeatureRecord r2 g2).id (sanitizedFeatureRecord r2 g2)
        (r1.origin ++ "::history".toList) = some (sanitizedFeatureRecord r2 g2)
    rw [hsr1, hsr2]
    simp only [setKey]
    simp
  · intro k hk
    show setKey (setKey store (sanitizedFeatureRecord r1 g1).id (sanitizedFeatureRecord r1 g1))
        (sanitizedFeatureRecord r2 g2).id (sanitizedFeatureRecord r2 g2) k = store k
    rw [hsr1, hsr2]
    simp only [setKey]
    rw [if_neg hk, if_neg hk]
  · intro k hk
    by_cases hkk : k = r1.origin ++ "::history".toList
    · exact hkk
    · exfalso
      apply hk
      show setKey (setKey emptyFeatureStore (sanitizedFeatureRecord r1 g1).id
          (sanitizedFeatureRecord r1 g1)) (sanitizedFeatureRecord r2 g2).id
          (sanitizedFeatureRecord r2 g2) k = none
      rw [hsr1, hsr2]
      simp only [setKey]
      rw [if_neg hkk, if_neg hkk]
      rfl
  · refine ⟨hg, ?_⟩
    show setKey store (sanitizedFeatureRecord r g).id (sanitizedFeatureRecord r g) g =
      some (sanitizedFeatureRecord r g)
    rw [hsrr]
    simp only [setKey]
    simp
  · intro k hk
    show setKey store (sanitizedFeatureRecord r g).id (sanitizedFeatureRecord r g) k = store k
    rw [hsrr]
    simp only [setKey]
    rw [if_neg hk]

theorem savePageFeature_id_semantics_witness :
    (savePageFeature emptyFeatureStore demoHistoryRecordA "g1".toList).1 =
      demoHistoryRecordA.origin ++ "::history".toList ∧
    (savePageFeature emptyFeatureStore demoHistoryRecordB "g2".toList).1 =
      (savePageFeature emptyFeatureStore demoHistoryRecordA "g1".toList).1 ∧
    (savePageFeature (savePageFeature emptyFeatureStore demoHistoryRecordA "g1".toList).2
        demoHistoryRecordB "g2".toList).2 (demoHistoryRecordA.origin ++ "::history".toList) =
      some (sanitizedFeatureRecord demoHistoryRecordB "g2".toList) ∧
    (∀ k, k ≠ demoHistoryRecordA.origin ++ "::history".toList →
      (savePageFeature (savePageFeature emptyFeatureStore demoHistoryRecordA "g1".toList).2
        demoHistoryRecordB "g2".toList).2 k = emptyFeatureStore k) ∧
    (∀ k, (savePageFeature (savePageFeature emptyFeatureStore demoHistoryRecordA "g1".toList).2
        demoHistoryRecordB "g2".toList).2 k ≠ none →
      k = demoHistoryRecordA.origin ++ "::history".toList) ∧
    (savePageFeature emptyFeatureStore demoLiveRecord "g3".toList).1 = "g3".toList ∧
    (emptyFeatureStore "g3".toList = none ∧
      (savePageFeature emptyFeatureStore demoLiveRecord "g3".toList).2 "g3".toList =
        some (sanitizedFeatureRecord demoLiveRecord "g3".toList)) ∧
    (∀ k, k ≠ "g3".toList →
      (savePageFeature emptyFeatureStore demoLiveRecord "g3".toList).2 k =
        emptyFeatureStore k) :=
  savePageFeature_id_semantics emptyFeatureStore demoHistoryRecordA demoHistoryRecordB
    demoLiveRecord "g1".toList "g2".toList "g3".toList rfl rfl rfl rfl rfl rfl
    (by decide) rfl

theorem sanitizeContextMetrics_characterCount (context : JSValue) :
    (sanitizeContextMetrics context).characterCount =
      (finiteNumber? (getField context "characterCount".toList)).getD 0 := by
  cases context <;> rfl

theorem sanitizeContextMetrics_paragraphCount (context : JSValue) :
    (sanitizeContextMetrics context).paragraphCount =
      (finiteNumber? (getField context "paragraphCount".toList)).getD 0 := by
  cases context <;> rfl

theorem sanitizeContextMetrics_headingCount (context : JSValue) :
    (sanitizeContextMetrics context).headingCount =
      (finiteNumber? (getField context "headingCount".toList)).getD 0 := by
  cases context <;> rfl

theorem sanitizeContextMetrics_imageCount (context : JSValue) :
    (sanitizeContextMetrics context).imageCount =
      (finiteNumber? (getField context "imageCount".toList)).getD 0 := by
  cases context <;> rfl

/-- C7 counterexample: the claim says validation defaults all string
fields to the empty string, but `category` is not in the sanitizer object
literal and flows through the `...payload` spread untouched: a numeric
`category` survives validation as a number (not as a string at all), and
an absent one stays `undefined` rather than becoming the empty string. -/
theorem validatePageAnalysis_keeps_category :
    (validatePageAnalysisPayload (some demoAnalysisPayloadCat) 0).map
        AnalysisSanitized.category = .ok (.num (.fin 7)) ∧
    JSValue.num (.fin 7) ≠ .str [] ∧
    (validatePageAnalysisPayload (some demoAnalysisPayloadBare) 0).map
        AnalysisSanitized.category = .ok .undefined :=
  ⟨rfl, fun h => JSValue.noConfusion h, rfl⟩

/-- C7 (amended): for a payload whose `url` is a non-blank string,
validation succeeds; `source` defaults to `live` unless it is exactly the
string `history`; `extractedAt` defaults to now when not of number type;
the five string fields named in the sanitizer (`title`, `visualTrend`,
`layoutHighlights`, `textSample`, `viewportSummary`) default to the empty
string when not strings, while `category`, `id` and `rawLLMResponse`
pass through unchanged; each of the four context counters independently
defaults to 0 when missing or non-finite; in particular a payload with
no `context` yields all four counters 0, and `handlePageAnalysis` then
stores a record whose context is the all-zero counter object. -/
theorem validatePageAnalysis_defaults (p : AnalysisPayload) (now : Int) (u : List Char)
    (hu : p.url = .str u) (hblank : isBlankString u = false) :
    validatePageAnalysisPayload (some p) now = .ok (sanitizedAnalysis p now u) ∧
    (sanitizedAnalysis p now u).url = u ∧
    (isHistorySource p.source = false → (sanitizedAnalysis p now u).source = "live".toList) ∧
    (isHistorySource p.source = true → (sanitizedAnalysis p now u).source = "history".toList) ∧
    ((∀ n, p.extractedAt ≠ .num n) → (sanitizedAnalysis p now u).extractedAt = .fin now) ∧
    ((∀ t, p.title ≠ .str t) → (sanitizedAnalysis p now u).title = []) ∧
    ((∀ t, p.visualTrend ≠ .str t) → (sanitizedAnalysis p now u).visualTrend = []) ∧
    ((∀ t, p.layoutHighlights ≠ .str t) → (sanitizedAnalysis p now u).layoutHighlights = []) ∧
    ((∀ t, p.textSample ≠ .str t) → (sanitizedAnalysis p now u).textSample = []) ∧
    ((∀ t, p.viewportSummary ≠ .str t) → (sanitizedAnalysis p now u).viewportSummary = []) ∧
    (sanitizedAnalysis p now u).category = p.category ∧
    (sanitizedAnalysis p now u).id = p.id ∧
    (sanitizedAnalysis p now u).rawLLMResponse = p.rawLLMResponse ∧
    (finiteNumber? (getField p.context "characterCount".toList) = none →
      (sanitizedAnalysis p now u).context.characterCount = 0) ∧
    (finiteNumber? (getField p.context "paragraphCount".toList) = none →
      (sanitizedAnalysis p now u).context.paragraphCount = 0) ∧
    (finiteNumber? (getField p.context "headingCount".toList) = none →
      (sanitizedAnalysis p now u).context.headingCount = 0) ∧
    (finiteNumber? (getField p.context "imageCount".toList) = none →
      (sanitizedAnalysis p now u).context.imageCount = 0) ∧
    (p.context = .undefined → (sanitizedAnalysis p now u).context = {}) ∧
    (p.context = .undefined → ∀ store genId, ∃ sr : StoredPageFeature,
      handlePageAnalysis (some p) now genId store = setKey store sr.id sr ∧
      sr.context = contextToJS {}) := by
  have hval : validatePageAnalysisPayload (some p) now = .ok (sanitizedAnalysis p now u) := by
    simp only [validatePageAnalysisPayload, hu, hblank, Bool.false_eq_true, if_false]
  refine ⟨hval, rfl, ?_, ?_, ?_, ?_, ?_, ?_, ?_, ?_, rfl, rfl, rfl, ?_, ?_, ?_, ?_, ?_, ?_⟩
  · intro h
    show (if isHistorySource p.source then "history".toList else "live".toList) = "live".toList
    rw [h]
    simp
  · intro h
    show (if isHistorySource p.source then "history".toList else "live".toList) =
      "history".toList
    rw [h]
    simp
  · intro h
    show (match p.extractedAt with | .num n => n | _ => JSNum.fin now) = JSNum.fin now
    cases hpe : p.extractedAt <;> first | rfl | exact absurd hpe (h _)
  · intro h
    show strOrEmpty p.title = []
    cases hpt : p.title <;> first | rfl | exact absurd hpt (h _)
  · intro h
    show strOrEmpty p.visualTrend = []
    cases hpt : p.visualTrend <;> first | rfl | exact absurd hpt (h _)
  · intro h
    show strOrEmpty p.layoutHighlights = []
    cases hpt : p.layoutHighlights <;> first | rfl | exact absurd hpt (h _)
  · intro h
    show strOrEmpty p.textSample = []
    cases hpt : p.textSample <;> first | rfl | exact absurd hpt (h _)
  · intro h
    show strOrEmpty p.viewportSummary = []
    cases hpt : p.viewportSummary <;> first | rfl | exact absurd hpt (h _)
  · intro h
    show (sanitizeContextMetrics p.context).characterCount = 0
    rw [sanitizeContextMetrics_characterCount, h]
    rfl
  · intro h
    show (sanitizeContextMetrics p.context).paragraphCount = 0
    rw [sanitizeContextMetrics_paragraphCount, h]
    rfl
  · intro h
    show (sanitizeContextMetrics p.context).headingCount = 0
    rw [sanitizeContextMetrics_headingCount, h]
    rfl
  · intro h
    show (sanitizeContextMetrics p.context).imageCount = 0
    rw [sanitizeContextMetrics_imageCount, h]
    rfl
  · intro h
    show sanitizeContextMetrics p.context = {}
    rw [h]
    rfl
  · intro h store genId
    refine ⟨sanitizedFeatureRecord (analysisFeatureRecord (sanitizedAnalysis p now u)) genId,
      ?_, ?_⟩
    · simp only [handlePageAnalysis, hval, savePageFeature]
    · show contextToJS (sanitizeContextMetrics p.context) = contextToJS {}
      rw [h]
      rfl

theorem validatePageAnalysis_defaults_witness :
    validatePageAnalysisPayload (some demoAnalysisPayloadBare) 5 =
      .ok (sanitizedAnalysis demoAnalysisPayloadBare 5 "https://b.test/".toList) ∧
    (sanitizedAnalysis demoAnalysisPayloadBare 5 "https://b.test/".toList).source =
      "live".toList ∧
    (sanitizedAnalysis demoAnalysisPayloadBare 5 "https://b.test/".toList).extractedAt =
      .fin 5 ∧
    (sanitizedAnalysis demoAnalysisPayloadBare 5 "https://b.test/".toList).context = {} ∧
    (∃ sr : StoredPageFeature,
      handlePageAnalysis (some demoAnalysisPayloadBare) 5 "gid".toList emptyFeatureStore =
        setKey emptyFeatureStore sr.id sr ∧
      sr.context = contextToJS {}) := by
  obtain ⟨hval, _hurl, hlive, _hhist, hext, _h5, _h6, _h7, _h8, _h9, _hc, _hi, _hr,
      _m1, _m2, _m3, _m4, hzero, hstore⟩ :=
    validatePageAnalysis_defaults demoAnalysisPayloadBare 5 "https://b.test/".toList rfl rfl
  exact ⟨hval, hlive rfl, hext (fun n h => JSValue.noConfusion h), hzero rfl,
    hstore rfl emptyFeatureStore "gid".toList⟩

/-- C3 counterexample: the claim says `highlightColor` is taken from
`meta.preferredColor`, with the fixed fallback only when it is absent;
but the code computes `meta?.preferredColor || '#fff6d5'`, which also
falls back on any present-but-falsy value.  With `preferredColor: false`
present in the (sanitized) meta and `visits` crossing the threshold, the
stored color is the fallback, not the supplied value. -/
theorem handleUserAction_fallback_on_falsy :
    getField (.obj (sanitizeMeta demoActionFalsyColor.meta)) "preferredColor".toList =
      .boolean false ∧
    (handleUserAction (some demoActionFalsyColor) demoStatsTwo emptyPrefs 100
        "log1".toList).prefs "https://a.test".toList =
      some { highlightColor := .str "#fff6d5".toList, lastUpdated := 100 } :=
  ⟨rfl, rfl⟩

/-- C3 (amended): processing a valid `UserAction` whose url maps to an
origin with an existing stats entry increments that origin's `visits` by
one (2 becomes 3) and overwrites `lastInteraction`; once the incremented
count reaches the threshold 3, the single preference entry for that
origin is (re)written — `highlightColor` is `meta.preferredColor` when
that (sanitized) value is truthy and the fixed fallback `#fff6d5` when
it is absent or falsy — no other origin's preference entry is touched
(so no duplicate is ever created), and both maps are persisted in one
combined store write. -/
theorem handleUserAction_visits_and_prefs (a : UserActionPayload) (st : StatsMap)
    (pf : PrefsMap) (now : Int) (logId : List Char) (u t o : List Char) (e : StatEntry)
    (hu : a.url = .str u) (hub : isBlankString u = false)
    (ht : a.type = .str t) (htb : isBlankString t = false)
    (ho : pageKeyOf u = o) (he : st o = some e) :
    ∃ entry2 : StatEntry,
      (handleUserAction (some a) st pf now logId).stats o = some entry2 ∧
      entry2.visits = e.visits + 1 ∧
      entry2.lastInteraction =
        some { type := t, meta := sanitizeMeta (.obj (sanitizeMeta a.meta)),
               timestamp := now } ∧
      (3 ≤ e.visits + 1 →
        (handleUserAction (some a) st pf now logId).prefs o =
          some { highlightColor := expectedHighlightColor (sanitizeMeta a.meta),
                 lastUpdated := now }) ∧
      (e.visits + 1 < 3 → (handleUserAction (some a) st pf now logId).prefs = pf) ∧
      (∀ k, k ≠ o → (handleUserAction (some a) st pf now logId).prefs k = pf k) ∧
      (handleUserAction (some a) st pf now logId).kvWrites =
        [.setStatsPrefs (handleUserAction (some a) st pf now logId).stats
          (handleUserAction (some a) st pf now logId).prefs] := by
  subst ho
  have hval : validateUserActionPayload (some a) =
      Except.ok { url := u, type := t, meta := sanitizeMeta a.meta } := by
    simp only [validateUserActionPayload, hu, ht, hub, htb, Bool.false_eq_true, if_false]
  have hprev : (st (pageKeyOf u)).getD { visits := 0, lastInteraction := none } = e := by
    rw [he]
    rfl
  refine ⟨{ visits := e.visits + 1,
            lastInteraction := some { type := t, meta := sanitizeMeta (.obj (sanitizeMeta a.meta)),
                                      timestamp := now } }, ?_, rfl, rfl, ?_, ?_, ?_, ?_⟩
  · simp only [handleUserAction, hval, hprev]
    simp [setKey]
  · intro h3
    simp only [handleUserAction, hval, hprev]
    rw [if_pos h3]
    simp [setKey, expectedHighlightColor]
  · intro hlt
    simp only [handleUserAction, hval, hprev]
    rw [if_neg (by omega)]
  · intro k hk
    simp only [handleUserAction, hval, hprev]
    split
    · simp [setKey, hk]
    · rfl
  · simp only [handleUserAction, hval]

theorem handleUserAction_visits_and_prefs_witness :
    ∃ entry2 : StatEntry,
      (handleUserAction (some demoActionColor) demoStatsTwo emptyPrefs 100
          "log1".toList).stats "https://a.test".toList = some entry2 ∧
      entry2.visits = 3 ∧
      (handleUserAction (some demoActionColor) demoStatsTwo emptyPrefs 100
          "log1".toList).prefs "https://a.test".toList =
        some { highlightColor := .str "#112233".toList, lastUpdated := 100 } ∧
      (handleUserAction (some demoActionColor) demoStatsTwo emptyPrefs 100
          "log1".toList).kvWrites =
        [.setStatsPrefs
          (handleUserAction (some demoActionColor) demoStatsTwo emptyPrefs 100
            "log1".toList).stats
          (handleUserAction (some demoActionColor) demoStatsTwo emptyPrefs 100
            "log1".toList).prefs] := by
  obtain ⟨e2, hst, hv, _hl, hpref, _hlt, _hk, hw⟩ :=
    handleUserAction_visits_and_prefs demoActionColor demoStatsTwo emptyPrefs 100
      "log1".toList "https://a.test/x".toList "click".toList "https://a.test".toList
      { visits := 2, lastInteraction := none } rfl rfl rfl rfl rfl rfl
  exact ⟨e2, hst, hv.trans (by norm_num), hpref (by norm_num), hw⟩

theorem visitsAt_setKey (st : StatsMap) (k o : List Char) (e : StatEntry) :
    visitsAt (setKey st k e) o = if o = k then e.visits else visitsAt st o := by
  by_cases h : o = k <;> simp [visitsAt, setKey, h]

theorem getD_visits (st : StatsMap) (o : List Char) :
    ((st o).getD { visits := 0, lastInteraction := none }).visits = visitsAt st o := by
  unfold visitsAt
  cases st o <;> rfl

theorem handleUserAction_visitsAt (a : Option UserActionPayload) (st : StatsMap)
    (pf : PrefsMap) (now : Int) (logId : List Char) (o : List Char) :
    (∀ r, validateUserActionPayload a = .error r →
      (handleUserAction a st pf now logId).stats = st) ∧
    (∀ s1, validateUserActionPayload a = .ok s1 →
      visitsAt (handleUserAction a st pf now logId).stats o =
        if o = pageKeyOf s1.url then visitsAt st o + 1 else visitsAt st o) := by
  refine ⟨?_, ?_⟩
  · intro r hv
    simp [handleUserAction, hv]
  · intro s1 hv
    have hstats : (handleUserAction a st pf now logId).stats =
        setKey st (pageKeyOf s1.url)
          { visits :=
              ((st (pageKeyOf s1.url)).getD { visits := 0, lastInteraction := none }).visits + 1
            lastInteraction := some { type := s1.type, meta := sanitizeMeta (.obj s1.meta),
                                      timestamp := now } } := by
      simp [handleUserAction, hv]
    rw [hstats, visitsAt_setKey]
    by_cases ho : o = pageKeyOf s1.url
    · rw [if_pos ho, if_pos ho]
      show ((st (pageKeyOf s1.url)).getD { visits := 0, lastInteraction := none }).visits + 1 =
        visitsAt st o + 1
      rw [getD_visits, ho]
    · rw [if_neg ho, if_neg ho]

/-- C9: the `visits` counter is monotonic across every task dispatch: no
handler ever decreases it; a valid `UserAction` whose url maps to the
origin增 increments it by exactly 1; a valid `UserAction` for another
origin, an invalid `UserAction`, a `SYNC_HISTORY`, a `PAGE_ANALYSIS` and
an unknown task type all leave the `pageStats` visits unchanged. -/
theorem visits_monotone (t : BgTask) (env : Env) (s : BgState) (o : List Char) :
    visitsAt s.stats o ≤ visitsAt (runTask t env s).stats o ∧
    (∀ a u ty, t = .userAction (some a) → a.url = .str u → isBlankString u = false →
      a.type = .str ty → isBlankString ty = false → pageKeyOf u = o →
      visitsAt (runTask t env s).stats o = visitsAt s.stats o + 1) ∧
    (∀ a s1, t = .userAction a → validateUserActionPayload a = .ok s1 →
      pageKeyOf s1.url ≠ o →
      visitsAt (runTask t env s).stats o = visitsAt s.stats o) ∧
    (∀ a r, t = .userAction a → validateUserActionPayload a = .error r →
      (runTask t env s).stats = s.stats) ∧
    (t = .syncHistory → (runTask t env s).stats = s.stats) ∧
    (∀ p, t = .pageAnalysis p → (runTask t env s).stats = s.stats) ∧
    (∀ tag, t = .unknown tag → (runTask t env s).stats = s.stats) := by
  refine ⟨?_, ?_, ?_, ?_, ?_, ?_, ?_⟩
  · cases t with
    | userAction a =>
      show visitsAt s.stats o ≤
        visitsAt (handleUserAction a s.stats s.prefs env.now env.genId).stats o
      cases hv : validateUserActionPayload a with
      | error r =>
        rw [(handleUserAction_visitsAt a s.stats s.prefs env.now env.genId o).1 r hv]
      | ok s1 =>
        rw [(handleUserAction_visitsAt a s.stats s.prefs env.now env.genId o).2 s1 hv]
        split
        · omega
        · exact le_refl _
    | syncHistory => exact le_refl _
    | pageAnalysis p => exact le_refl _
    | unknown tag => exact le_refl _
  · rintro a u ty rfl hu hub ht htb ho
    have hval : validateUserActionPayload (some a) =
        Except.ok { url := u, type := ty, meta := sanitizeMeta a.meta } := by
      simp only [validateUserActionPayload, hu, ht, hub, htb, Bool.false_eq_true, if_false]
    show visitsAt (handleUserAction (some a) s.stats s.prefs env.now env.genId).stats o =
      visitsAt s.stats o + 1
    rw [(handleUserAction_visitsAt (some a) s.stats s.prefs env.now env.genId o).2 _ hval]
    rw [if_pos]
    show o = pageKeyOf u
    exact ho.symm
  · rintro a s1 rfl hv hne
    show visitsAt (handleUserAction a s.stats s.prefs env.now env.genId).stats o =
      visitsAt s.stats o
    rw [(handleUserAction_visitsAt a s.stats s.prefs env.now env.genId o).2 s1 hv]
    rw [if_neg (fun h => hne h.symm)]
  · rintro a r rfl hv
    exact (handleUserAction_visitsAt a s.stats s.prefs env.now env.genId o).1 r hv
  · rintro rfl
    rfl
  · rintro p rfl
    rfl
  · rintro tag rfl
    rfl

theorem visits_monotone_witness :
    visitsAt demoBgState.stats "https://a.test".toList ≤
      visitsAt (runTask (.userAction (some demoActionColor)) demoEnv demoBgState).stats
        "https://a.test".toList ∧
    visitsAt (runTask (.userAction (some demoActionColor)) demoEnv demoBgState).stats
        "https://a.test".toList =
      visitsAt demoBgState.stats "https://a.test".toList + 1 ∧
    (runTask .syncHistory demoEnv demoBgState).stats = demoBgState.stats := by
  obtain ⟨hm, hp, _, _, _, _, _⟩ :=
    visits_monotone (.userAction (some demoActionColor)) demoEnv demoBgState
      "https://a.test".toList
  obtain ⟨_, _, _, _, hs, _, _⟩ :=
    visits_monotone .syncHistory demoEnv demoBgState "https://a.test".toList
  exact ⟨hm, hp demoActionColor "https://a.test/x".toList "click".toList rfl rfl rfl rfl rfl
    rfl, hs rfl⟩

end PersonalizeBG
